import Mathlib

/-!
Shallow embedding of the wErase background-removal application
(intellwe/werase): the model-switch lifecycle in `App.tsx`
(`handleModelChange`, `onDrop`, delete handler) and the compositing
and effects engine in `EditModal.tsx` (`applyChanges`,
`getCurrentEffectValue`, `handleEffectValueChange`).

Machine integers are `Nat`; per-channel pixel arithmetic, performed by
the source in JavaScript doubles, is embedded over `ℚ` with the
byte-store quantisation of `Uint8ClampedArray` (clamp to [0,255],
round to nearest, ties to even) made explicit.
-/

/-! ## Pixels and the Uint8ClampedArray store -/

/-- One RGBA pixel of an `ImageData` buffer: four byte channels. -/
structure Pixel where
  r : ℕ
  g : ℕ
  b : ℕ
  a : ℕ
deriving DecidableEq

/-- Round to nearest integer, ties to even: the rounding of a JavaScript
`Uint8ClampedArray` store (within range). -/
def roundTiesEven (q : ℚ) : ℤ :=
  if Int.fract q = 1/2 then (if 2 ∣ ⌊q⌋ then ⌊q⌋ else ⌊q⌋ + 1)
  else round q

/-- A store into a `Uint8ClampedArray` element: clamp to [0, 255] and
round to the nearest integer (ties to even). -/
def clampByte (q : ℚ) : ℕ :=
  if q ≤ 0 then 0
  else if 255 ≤ q then 255
  else (roundTiesEven q).toNat

/-! ## The per-channel effect arithmetic of `applyChanges`
(`EditModal.tsx`, brightness lines 136-143, contrast lines 145-153). -/

/-- `data[i] = Math.min(255, data[i] * (brightnessValue / 50))` followed by
the clamped byte store. -/
def brightnessChannel (brightnessValue c : ℕ) : ℕ :=
  clampByte (min 255 ((c : ℚ) * ((brightnessValue : ℚ) / 50)))

/-- `const factor = (259 * (contrastValue + 255)) / (255 * (259 - contrastValue))`. -/
def contrastFactor (contrastValue : ℕ) : ℚ :=
  (259 * ((contrastValue : ℚ) + 255)) / (255 * (259 - (contrastValue : ℚ)))

/-- `data[i] = factor * (data[i] - 128) + 128` followed by the clamped
byte store (the source writes through `Uint8ClampedArray`, which is
where the clamping happens: the expression itself is unclamped). -/
def contrastChannel (contrastValue c : ℕ) : ℕ :=
  clampByte (contrastFactor contrastValue * ((c : ℚ) - 128) + 128)

/-- The brightness loop body on one RGBA pixel: channels `i`, `i+1`, `i+2`
are remapped, `i+3` (alpha) is not written. -/
def applyBrightnessPixel (brightnessValue : ℕ) (p : Pixel) : Pixel :=
  { r := brightnessChannel brightnessValue p.r
    g := brightnessChannel brightnessValue p.g
    b := brightnessChannel brightnessValue p.b
    a := p.a }

/-- The contrast loop body on one RGBA pixel: channels `i`, `i+1`, `i+2`
are remapped, `i+3` (alpha) is not written. -/
def applyContrastPixel (contrastValue : ℕ) (p : Pixel) : Pixel :=
  { r := contrastChannel contrastValue p.r
    g := contrastChannel contrastValue p.g
    b := contrastChannel contrastValue p.b
    a := p.a }

/-! ## Canvas rasters and 2d-context operations

The compositing engine draws through a `CanvasRenderingContext2D`.  A
canvas (or decoded image) is embedded as dimensions plus a total pixel
function; the context operations used by `applyChanges` — `fillRect`,
`drawImage` (unscaled and scaled to a destination rectangle), and the
per-pixel `getImageData`/`putImageData` loops — are embedded below.
The default composite operation of the 2d context, source-over alpha
blending, is computed exactly over `ℚ` and quantised per channel. -/

/-- A raster: a decoded image or a canvas bitmap. -/
structure Img where
  width : ℕ
  height : ℕ
  pix : ℕ → ℕ → Pixel

/-- The fully transparent pixel. -/
def Pixel.transparent : Pixel := ⟨0, 0, 0, 0⟩

/-- A freshly created canvas: every pixel transparent black. -/
def blankCanvas (w h : ℕ) : Img :=
  { width := w, height := h, pix := fun _ _ => Pixel.transparent }

/-- Source-over alpha blending of pixel `f` over pixel `b` (the default
`globalCompositeOperation` of a 2d context), exact over `ℚ` with the
byte quantisation of the canvas store. -/
def over (f b : Pixel) : Pixel :=
  let af : ℚ := f.a
  let ab : ℚ := b.a
  let aout : ℚ := af + ab * (255 - af) / 255
  if aout = 0 then Pixel.transparent
  else
    { r := clampByte (((f.r : ℚ) * af + (b.r : ℚ) * ab * (255 - af) / 255) / aout)
      g := clampByte (((f.g : ℚ) * af + (b.g : ℚ) * ab * (255 - af) / 255) / aout)
      b := clampByte (((f.b : ℚ) * af + (b.b : ℚ) * ab * (255 - af) / 255) / aout)
      a := clampByte aout }

/-- `ctx.fillRect(0, 0, canvas.width, canvas.height)` with the current
`fillStyle` colour (parsed from the hex string; opaque). -/
def fillRect (color : Pixel) (c : Img) : Img :=
  { width := c.width, height := c.height
    pix := fun x y =>
      if x < c.width ∧ y < c.height then over color (c.pix x y) else c.pix x y }

/-- `ctx.drawImage(src, 0, 0)`: composite the source at its natural size
onto the destination, source-over. -/
def drawImageAt (src dst : Img) : Img :=
  { width := dst.width, height := dst.height
    pix := fun x y =>
      if x < src.width ∧ y < src.height ∧ x < dst.width ∧ y < dst.height
      then over (src.pix x y) (dst.pix x y)
      else dst.pix x y }

/-- `ctx.drawImage(src, 0, 0, canvas.width, canvas.height)`: the source
is drawn scaled to exactly the destination rectangle `(0, 0, w, h)` —
every destination pixel samples the source through the inverse of the
stretch map (embedded with floor sampling; the browser smoothing filter
differs only in interpolation, the mapped rectangle is the same). -/
def drawImageStretched (src dst : Img) : Img :=
  { width := dst.width, height := dst.height
    pix := fun x y =>
      if x < dst.width ∧ y < dst.height
      then over (src.pix (x * src.width / dst.width) (y * src.height / dst.height))
             (dst.pix x y)
      else dst.pix x y }

/-- The `getImageData` / per-pixel loop / `putImageData` pattern of the
brightness and contrast branches: remap every in-bounds pixel. -/
def mapPixels (f : Pixel → Pixel) (c : Img) : Img :=
  { width := c.width, height := c.height
    pix := fun x y =>
      if x < c.width ∧ y < c.height then f (c.pix x y) else c.pix x y }

/-- Modelled from the spec: the CSS filter `blur(blurValue/10 px)`
applied by `ctx.filter` is an external browser primitive (a one-pass
smoothing filter whose radius scales as intensity/10, §4.4); it is
embedded as a box average of window radius `blurValue / 10` whole
pixels, with pixels outside the canvas transparent. -/
def cssBlur (blurValue : ℕ) (c : Img) : Img :=
  let k : ℕ := blurValue / 10
  let offsets : List ℤ := (List.range (2 * k + 1)).map fun i => (i : ℤ) - (k : ℤ)
  let sample : ℤ → ℤ → Pixel := fun x y =>
    if 0 ≤ x ∧ 0 ≤ y ∧ x < (c.width : ℤ) ∧ y < (c.height : ℤ)
    then c.pix x.toNat y.toNat
    else Pixel.transparent
  let n : ℚ := ((2 * k + 1) * (2 * k + 1) : ℕ)
  { width := c.width, height := c.height
    pix := fun x y =>
      if x < c.width ∧ y < c.height then
        let win : List Pixel :=
          offsets.flatMap fun dy => offsets.map fun dx => sample ((x : ℤ) + dx) ((y : ℤ) + dy)
        { r := clampByte ((win.map fun p => (p.r : ℚ)).sum / n)
          g := clampByte ((win.map fun p => (p.g : ℚ)).sum / n)
          b := clampByte ((win.map fun p => (p.b : ℚ)).sum / n)
          a := clampByte ((win.map fun p => (p.a : ℚ)).sum / n) }
      else c.pix x y }

/-! ## The compositing engine: `applyChanges` (EditModal.tsx lines 81-159) -/

/-- A file handed to the engine, as the browser decoder sees it: its
bytes either decode to a raster (`onload` fires) or fail to decode
(`onerror` fires; `onload` never does). -/
structure RawFile where
  decoded : Option Img

/-- The effect-application tail of `applyChanges` (lines 109-155), as a
stage function on the composited canvas: the guard
the guard that `selectedEffect` differs from the none id, and the
`switch` over the effect id. -/
def applyEffectImg (selectedEffect : String) (blurValue brightnessValue contrastValue : ℕ)
    (c : Img) : Img :=
  if selectedEffect = "none" then c
  else
    match selectedEffect with
    | "blur" =>
      let temp := drawImageAt c (blankCanvas c.width c.height)
      drawImageAt (cssBlur blurValue temp) (blankCanvas c.width c.height)
    | "brightness" => mapPixels (applyBrightnessPixel brightnessValue) c
    | "contrast" => mapPixels (applyContrastPixel contrastValue) c
    | _ => c

/-- The background step of `applyChanges` (lines 95-104), as a stage
function: a flat fill for the colour type, a stretched draw of the
(already decoded) fill image for the image type, otherwise nothing. -/
def paintBackground (bgType : String) (bgColor : Pixel) (bgImg : Option Img) (c : Img) : Img :=
  if bgType = "color" then fillRect bgColor c
  else if bgType = "image" then
    match bgImg with
    | some b => drawImageStretched b c
    | none => c
  else c

/-- `applyChanges` (EditModal.tsx lines 81-159), straight-line: early
return when there is no processed file; `await img.onload` on the
foreground (never resolves if decoding fails — result `none`); canvas
sized to the foreground; background painted (with `await bgImg.onload`
when a fill image is selected — `none` again if it fails to decode);
the foreground drawn on top; the selected effect applied; the canvas
exported.  `none` means no export is ever produced. -/
def applyChanges (processedFile : Option RawFile) (bgType : String) (bgColor : Pixel)
    (customBgImage : Option RawFile) (selectedEffect : String)
    (blurValue brightnessValue contrastValue : ℕ) : Option Img :=
  match processedFile with
  | none => none
  | some pf =>
    match pf.decoded with
    | none => none
    | some img =>
      let canvas := blankCanvas img.width img.height
      let afterBg : Option Img :=
        if bgType = "color" then
          some (fillRect bgColor canvas)
        else if bgType = "image" then
          match customBgImage with
          | some f =>
            match f.decoded with
            | none => none
            | some bg => some (drawImageStretched bg canvas)
          | none => some canvas
        else some canvas
      match afterBg with
      | none => none
      | some c1 =>
        let c2 := drawImageAt img c1
        let c3 :=
          if selectedEffect = "none" then c2
          else
            match selectedEffect with
            | "blur" =>
              let temp := drawImageAt c2 (blankCanvas c2.width c2.height)
              drawImageAt (cssBlur blurValue temp) (blankCanvas c2.width c2.height)
            | "brightness" => mapPixels (applyBrightnessPixel brightnessValue) c2
            | "contrast" => mapPixels (applyContrastPixel contrastValue) c2
            | _ => c2
        some c3

/-! ## Model lifecycle: `handleModelChange` (App.tsx lines 135-156) -/

/-- The `App` component state touched by `handleModelChange`. -/
structure AppState where
  currentModel : String
  error : Option String
  isModelSwitching : Bool
deriving DecidableEq

/-- The outcome of `await initializeModel(newModel)` (`lib/process`,
outside `src/`): it either resolves to a boolean or rejects with an
`Error` carrying a message. -/
inductive InitResult where
  | ok : Bool → InitResult
  | thrown : String → InitResult
deriving DecidableEq

/-- Substring containment over character data (used to embed the
JavaScript `String.prototype.includes` test). -/
def containsSub (pat : List Char) : List Char → Bool
  | [] => pat.isEmpty
  | c :: rest => pat.isPrefixOf (c :: rest) || containsSub pat rest

/-- `err.message.includes("Falling back")`. -/
def mentionsFallingBack (m : String) : Bool :=
  containsSub "Falling back".data m.data

/-- `handleModelChange` (App.tsx lines 135-156) as a state transition,
given the outcome of `initializeModel(newModel)`: sets the switching
flag, clears the error, and on a rejection whose message includes
"Falling back" reverts the current model to `briaai/RMBG-1.4` without
recording an error; any other failure records the message; the
`finally` block clears the switching flag. -/
def handleModelChange (res : InitResult) (newModel : String) (s : AppState) : AppState :=
  let s1 : AppState := { s with isModelSwitching := true, error := none }
  let s2 : AppState :=
    match res with
    | .ok true => { s1 with currentModel := newModel }
    | .ok false =>
      let m := "Failed to initialize new model"
      if mentionsFallingBack m then { s1 with currentModel := "briaai/RMBG-1.4" }
      else { s1 with error := some m }
    | .thrown m =>
      if mentionsFallingBack m then { s1 with currentModel := "briaai/RMBG-1.4" }
      else { s1 with error := some m }
  { s2 with isModelSwitching := false }

/-- Modelled from the spec: `initializeModel` lives in `lib/process`,
which is not under `src/`; per §4.2, when the quality model fails to
initialize it reverts to the compatibility model and reports the
distinguishable fell-back signal — the rejection `handleModelChange`
tests for is an `Error` whose message contains "Falling back". -/
def qualityModelInitFailure : InitResult :=
  InitResult.thrown "WebGPU initialization failed. Falling back to cross-browser version."

/-! ## The image store: `onDrop`, processing loop, deletion (App.tsx) -/

/-- One entry of the `images` state (`ImageFile` in App.tsx): the id,
the raw file (an opaque tag) and the processed result when present. -/
structure ImageFile where
  id : ℕ
  file : ℕ
  processedFile : Option ℕ
deriving DecidableEq

/-- `acceptedFiles.map((file, index) => ({ id: Date.now() + index, file,
processedFile: undefined }))` (App.tsx lines 159-163); `now` is the
`Date.now()` millisecond reading of this ingestion. -/
def newImages (now : ℕ) (files : List ℕ) : List ImageFile :=
  files.enum.map fun p => { id := now + p.1, file := p.2, processedFile := none }

/-- The ids a whole session of ingestions assigns: each call to `onDrop`
reads `Date.now()` once; readings are non-decreasing over the session. -/
def sessionIds : List (ℕ × List ℕ) → List ℕ
  | [] => []
  | (t, fs) :: rest => (newImages t fs).map (·.id) ++ sessionIds rest

/-- `setImages(prev => prev.map(img => img.id === image.id
? { ...img, processedFile: result[0] } : img))` (App.tsx lines 193-197):
attach a completed segmentation to the record with the given id. -/
def markProcessed (imgs : List ImageFile) (i r : ℕ) : List ImageFile :=
  imgs.map fun img => if img.id = i then { img with processedFile := some r } else img

/-- The per-item processing loop of `onDrop` (lines 189-202): each batch
item is awaited in order; `none` is a thrown `processImages` (caught,
logged, loop continues), `some rs` the resolved result list, attached
only when non-empty. -/
def processLoop : List (ImageFile × Option (List ℕ)) → List ImageFile → List ImageFile
  | [], imgs => imgs
  | (image, res) :: rest, imgs =>
    let imgs' :=
      match res with
      | some (r :: _) => markProcessed imgs image.id r
      | _ => imgs
    processLoop rest imgs'

/-- A whole `onDrop` ingestion of `files` into store `prev` at time
`now`, with `outcomes` the per-item results of `processImages`. -/
def onDropProcess (prev : List ImageFile) (now : ℕ) (files : List ℕ)
    (outcomes : List (Option (List ℕ))) : List ImageFile :=
  processLoop ((newImages now files).zip outcomes) (prev ++ newImages now files)

/-- `onDelete`: `setImages(prev => prev.filter(img => img.id !== id))`
(App.tsx line 427). -/
def removeImage (imgs : List ImageFile) (i : ℕ) : List ImageFile :=
  imgs.filter fun img => img.id != i

/-! ## Edit-config effect state (EditModal.tsx lines 39-79) -/

/-- The effect-related `EditModal` state: the selected effect id and the
three per-kind intensity values, each its own `useState`. -/
structure EffectState where
  selectedEffect : String
  blurValue : ℕ
  brightnessValue : ℕ
  contrastValue : ℕ
deriving DecidableEq

/-- The effect-button click handler:
`onClick={() => setSelectedEffect(option.id)}`. -/
def setSelectedEffect (s : EffectState) (eff : String) : EffectState :=
  { s with selectedEffect := eff }

/-- `getCurrentEffectValue` (EditModal.tsx lines 54-65). -/
def getCurrentEffectValue (s : EffectState) : ℕ :=
  match s.selectedEffect with
  | "blur" => s.blurValue
  | "brightness" => s.brightnessValue
  | "contrast" => s.contrastValue
  | _ => 50

/-- `handleEffectValueChange` (EditModal.tsx lines 67-79): writes the
slider value into the store of the currently selected kind only. -/
def handleEffectValueChange (s : EffectState) (value : ℕ) : EffectState :=
  match s.selectedEffect with
  | "blur" => { s with blurValue := value }
  | "brightness" => { s with brightnessValue := value }
  | "contrast" => { s with contrastValue := value }
  | _ => s

/-- A session of ingestions whose `Date.now()` readings are spaced by at
least the size of the preceding batch: each reading is at least the
previous reading plus the previous batch length. -/
def wellSeparated (batches : List (ℕ × List ℕ)) : Prop :=
  List.Chain' (fun a b => a.1 + a.2.length ≤ b.1) batches

/-- A concrete 2-by-2 opaque foreground raster (for witnesses). -/
def exFg : Img := { width := 2, height := 2, pix := fun _ _ => ⟨10, 20, 30, 255⟩ }

/-- A concrete 1-by-1 opaque fill raster (for witnesses). -/
def exBg : Img := { width := 1, height := 1, pix := fun _ _ => ⟨50, 60, 70, 255⟩ }

/-- A concrete opaque background colour (for witnesses). -/
def exColor : Pixel := ⟨255, 0, 0, 255⟩

/-! ### Basic facts about the clamped byte store -/

theorem roundTiesEven_intCast (n : ℤ) : roundTiesEven (n : ℚ) = n := by
  unfold roundTiesEven
  rw [Int.fract_intCast, if_neg (by norm_num), round_intCast]

theorem clampByte_le_255 (q : ℚ) : clampByte q ≤ 255 := by
  unfold clampByte
  split
  · omega
  · split
    · omega
    · rename_i h0 h255
      push_neg at h0 h255
      have hfl : (⌊q⌋ : ℚ) ≤ q := Int.floor_le q
      have hflt : ⌊q⌋ < 255 := by
        have := Int.floor_le_floor (le_of_lt h255)
        have h9 : ⌊(255 : ℚ)⌋ = 255 := by norm_num
        by_contra hc
        push_neg at hc
        have : (255 : ℚ) ≤ (⌊q⌋ : ℚ) := by exact_mod_cast hc
        linarith
      have hbound : roundTiesEven q ≤ ⌊q⌋ + 1 := by
        unfold roundTiesEven
        split
        · split <;> omega
        · calc round q = ⌊q + 1/2⌋ := round_eq q
            _ ≤ ⌊q⌋ + 1 := by
              have h2 : q + 1/2 < ((⌊q⌋ + 2 : ℤ) : ℚ) := by
                have := Int.lt_floor_add_one q
                push_cast
                linarith
              have := Int.floor_lt.mpr h2
              omega
      omega

theorem clampByte_natCast (c : ℕ) (hc : c ≤ 255) : clampByte (c : ℚ) = c := by
  unfold clampByte
  split
  · rename_i h
    have : c = 0 := by exact_mod_cast le_antisymm (by exact_mod_cast h) (Nat.zero_le c)
    omega
  · split
    · rename_i _ h
      have : (255 : ℚ) ≤ c := h
      have : 255 ≤ c := by exact_mod_cast this
      omega
    · rw [show ((c : ℚ)) = ((c : ℤ) : ℚ) by push_cast; ring, roundTiesEven_intCast]
      simp

theorem clampByte_zero : clampByte 0 = 0 := by
  unfold clampByte
  norm_num

/-! ## C2 / C6: the Contrast and Brightness channel remaps -/

/-- C6: for every channel value in [0,255] and intensity in [0,100], the
Brightness effect stores `min(255, c * (intensity/50))` through the
clamped byte store: the result never exceeds 255, intensity 50 is the
identity, 100 doubles the channel (clamped), 0 yields black, and the
alpha channel of the pixel is not written. -/
theorem brightness_effect_correct (v c : ℕ) (p : Pixel) (_hv : v ≤ 100) (hc : c ≤ 255) :
    brightnessChannel v c = clampByte (min 255 ((c : ℚ) * ((v : ℚ) / 50))) ∧
    brightnessChannel v c ≤ 255 ∧
    brightnessChannel 50 c = c ∧
    brightnessChannel 0 c = 0 ∧
    brightnessChannel 100 c = min 255 (2 * c) ∧
    (applyBrightnessPixel v p).a = p.a := by
  refine ⟨rfl, clampByte_le_255 _, ?_, ?_, ?_, rfl⟩
  · have h1 : ((50 : ℕ) : ℚ) / 50 = 1 := by norm_num
    rw [brightnessChannel, h1, mul_one, min_eq_right (by exact_mod_cast hc),
      clampByte_natCast c hc]
  · have h0 : min (255 : ℚ) ((c : ℚ) * (((0 : ℕ) : ℚ) / 50)) = 0 := by norm_num
    rw [brightnessChannel, h0, clampByte_zero]
  · have h2 : ((100 : ℕ) : ℚ) / 50 = 2 := by norm_num
    have h3 : min (255 : ℚ) ((c : ℚ) * 2) = ((min 255 (2 * c) : ℕ) : ℚ) := by
      push_cast
      rw [mul_comm]
    rw [brightnessChannel, h2, h3, clampByte_natCast _ (min_le_left _ _)]

/-- Witness for the Brightness theorem at intensity 100, channel 200,
pixel (10, 20, 30, 40). -/
theorem brightness_effect_correct_witness :
    brightnessChannel 50 200 = 200 ∧ brightnessChannel 0 200 = 0 ∧
      brightnessChannel 100 200 = 255 ∧ (applyBrightnessPixel 100 ⟨10, 20, 30, 40⟩).a = 40 := by
  have h := brightness_effect_correct 100 200 ⟨10, 20, 30, 40⟩ (by norm_num) (by norm_num)
  exact ⟨h.2.2.1, h.2.2.2.1, h.2.2.2.2.1.trans (by norm_num), h.2.2.2.2.2⟩

/-- C2: for every channel value in [0,255] and intensity in [0,100], the
Contrast effect stores `factor * (c - 128) + 128` with
`factor = 259 * (intensity + 255) / (255 * (259 - intensity))` through
the clamped byte store (the clamping is the `Uint8ClampedArray` write):
the result never exceeds 255, intensity 0 (factor 1) is the identity,
and the alpha channel of the pixel is not written. -/
theorem contrast_effect_correct (v c : ℕ) (p : Pixel) (_hv : v ≤ 100) (hc : c ≤ 255) :
    contrastChannel v c =
      clampByte ((259 * ((v : ℚ) + 255)) / (255 * (259 - (v : ℚ))) * ((c : ℚ) - 128) + 128) ∧
    contrastChannel v c ≤ 255 ∧
    contrastChannel 0 c = c ∧
    (applyContrastPixel v p).a = p.a := by
  refine ⟨rfl, clampByte_le_255 _, ?_, rfl⟩
  have hf : contrastFactor 0 = 1 := by
    unfold contrastFactor
    norm_num
  have hcc : contrastFactor 0 * ((c : ℚ) - 128) + 128 = (c : ℚ) := by
    rw [hf]
    ring
  rw [contrastChannel, hcc, clampByte_natCast c hc]

/-- Witness for the Contrast theorem at intensity 100, channel 255,
pixel (10, 20, 30, 40). -/
theorem contrast_effect_correct_witness :
    contrastChannel 100 255 ≤ 255 ∧ contrastChannel 0 255 = 255 ∧
      (applyContrastPixel 100 ⟨10, 20, 30, 40⟩).a = 40 :=
  ⟨(contrast_effect_correct 100 255 ⟨10, 20, 30, 40⟩ (by norm_num) (by norm_num)).2.1,
   (contrast_effect_correct 100 255 ⟨10, 20, 30, 40⟩ (by norm_num) (by norm_num)).2.2.1,
   (contrast_effect_correct 100 255 ⟨10, 20, 30, 40⟩ (by norm_num) (by norm_num)).2.2.2⟩

/-! ## C9: effect-kind switching keeps stored intensities -/

/-- C9: clicking another effect kind rewrites only `selectedEffect`; the
three stored intensities are untouched, so switching away and back
restores the prior slider value of the original kind. -/
theorem effect_kind_switch_preserves_intensities (s : EffectState) (k : String) :
    (setSelectedEffect s k).blurValue = s.blurValue ∧
    (setSelectedEffect s k).brightnessValue = s.brightnessValue ∧
    (setSelectedEffect s k).contrastValue = s.contrastValue ∧
    getCurrentEffectValue (setSelectedEffect (setSelectedEffect s k) s.selectedEffect) =
      getCurrentEffectValue s :=
  ⟨rfl, rfl, rfl, rfl⟩

/-! ## C1: quality-model switch failure falls back to the compatibility model -/

/-- C1: when `initializeModel` rejects with the fell-back signal during a
switch to the quality model, `handleModelChange` ends with the
compatibility model `briaai/RMBG-1.4` active, no recorded error and the
switching flag cleared — while a rejection without the signal is instead
surfaced as an opaque recorded error, so the two are distinguishable. -/
theorem model_switch_fallback (s : AppState) :
    (handleModelChange qualityModelInitFailure "Xenova/modnet" s).currentModel =
        "briaai/RMBG-1.4" ∧
    (handleModelChange qualityModelInitFailure "Xenova/modnet" s).error = none ∧
    (handleModelChange qualityModelInitFailure "Xenova/modnet" s).isModelSwitching = false ∧
    (∀ m : String, mentionsFallingBack m = false →
      (handleModelChange (.thrown m) "Xenova/modnet" s).error = some m) := by
  have hb : mentionsFallingBack
      "WebGPU initialization failed. Falling back to cross-browser version." = true := by decide
  refine ⟨?_, ?_, ?_, ?_⟩
  · simp [handleModelChange, qualityModelInitFailure, hb]
  · simp [handleModelChange, qualityModelInitFailure, hb]
  · simp [handleModelChange, qualityModelInitFailure, hb]
  · intro m hm
    simp [handleModelChange, hm]

/-- Witness for the fallback theorem at a concrete starting state and a
concrete opaque failure message. -/
theorem model_switch_fallback_witness :
    (handleModelChange qualityModelInitFailure "Xenova/modnet"
        ⟨"briaai/RMBG-1.4", none, false⟩).currentModel = "briaai/RMBG-1.4" ∧
    (handleModelChange qualityModelInitFailure "Xenova/modnet"
        ⟨"briaai/RMBG-1.4", none, false⟩).error = none ∧
    (handleModelChange (.thrown "network timeout") "Xenova/modnet"
        ⟨"briaai/RMBG-1.4", none, false⟩).error = some "network timeout" := by
  have h := model_switch_fallback ⟨"briaai/RMBG-1.4", none, false⟩
  exact ⟨h.1, h.2.1, h.2.2.2 "network timeout" (by decide)⟩

/-! ## C3 / C10: background decode failure and missing fill image -/

/-- C3: with an ImageFill background whose selected fill file fails to
decode, `applyChanges` never completes: the `await` on `bgImg.onload`
never resolves, so no export is produced — the render neither proceeds
with a transparent fill nor errors. -/
theorem render_hangs_on_bg_decode_failure (fg : Img) (bgColor : Pixel) (eff : String)
    (bV brV cV : ℕ) :
    applyChanges (some ⟨some fg⟩) "image" bgColor (some ⟨none⟩) eff bV brV cV = none :=
  rfl

/-- C10: with background type ImageFill but no fill file selected, the
background step is skipped and the render completes: the output is the
selected effect applied to the foreground composited over the
fully transparent blank canvas. -/
theorem render_imagefill_without_file (fg : Img) (bgColor : Pixel) (eff : String)
    (bV brV cV : ℕ) :
    applyChanges (some ⟨some fg⟩) "image" bgColor none eff bV brV cV =
      some (applyEffectImg eff bV brV cV
        (drawImageAt fg (blankCanvas fg.width fg.height))) :=
  rfl

/-! ## C5: fixed pipeline order of the render -/

/-- C5: the render factors into the fixed stage order — background
painted first (a flat fill for the colour type; a draw of the fill image
stretched to exactly the output dimensions for the image type), then the
alpha-matted foreground composited on top, then the selected effect
applied to the composited result — and the stretched background draw
covers every output pixel by sampling the fill image (no letterbox). -/
theorem render_pipeline_order (fg bg : Img) (bgColor : Pixel) (anyBg : Option RawFile)
    (eff : String) (bV brV cV : ℕ) :
    applyChanges (some ⟨some fg⟩) "color" bgColor anyBg eff bV brV cV =
      some (applyEffectImg eff bV brV cV
        (drawImageAt fg
          (paintBackground "color" bgColor none (blankCanvas fg.width fg.height)))) ∧
    applyChanges (some ⟨some fg⟩) "image" bgColor (some ⟨some bg⟩) eff bV brV cV =
      some (applyEffectImg eff bV brV cV
        (drawImageAt fg
          (paintBackground "image" bgColor (some bg) (blankCanvas fg.width fg.height)))) ∧
    (∀ x y, x < fg.width → y < fg.height →
      (paintBackground "image" bgColor (some bg) (blankCanvas fg.width fg.height)).pix x y =
        over (bg.pix (x * bg.width / fg.width) (y * bg.height / fg.height))
          Pixel.transparent) := by
  refine ⟨rfl, rfl, ?_⟩
  intro x y hx hy
  simp [paintBackground, drawImageStretched, blankCanvas, hx, hy]

/-- Witness for the pipeline-order theorem on a concrete 2-by-2
foreground, 1-by-1 fill image and red colour fill. -/
theorem render_pipeline_order_witness :
    applyChanges (some ⟨some exFg⟩) "color" exColor none "none" 0 0 0 =
      some (applyEffectImg "none" 0 0 0
        (drawImageAt exFg
          (paintBackground "color" exColor none (blankCanvas exFg.width exFg.height)))) ∧
    applyChanges (some ⟨some exFg⟩) "image" exColor (some ⟨some exBg⟩) "none" 0 0 0 =
      some (applyEffectImg "none" 0 0 0
        (drawImageAt exFg
          (paintBackground "image" exColor (some exBg) (blankCanvas exFg.width exFg.height)))) ∧
    (paintBackground "image" exColor (some exBg) (blankCanvas exFg.width exFg.height)).pix 1 1 =
      over (exBg.pix (1 * exBg.width / exFg.width) (1 * exBg.height / exFg.height))
        Pixel.transparent := by
  have h := render_pipeline_order exFg exBg exColor none "none" 0 0 0
  exact ⟨h.1, h.2.1, h.2.2 1 1 (by decide) (by decide)⟩

/-! ## C4: id assignment across a session -/

theorem newImages_map_id (t : ℕ) (fs : List ℕ) :
    (newImages t fs).map (·.id) = (List.range fs.length).map (t + ·) := by
  unfold newImages
  rw [List.map_map, ← List.enum_map_fst fs, List.map_map]
  exact List.map_congr_left fun p _ => rfl

theorem mem_newImages_ids (t : ℕ) (fs : List ℕ) (x : ℕ)
    (hx : x ∈ (newImages t fs).map (·.id)) : t ≤ x ∧ x < t + fs.length := by
  rw [newImages_map_id] at hx
  simp only [List.mem_map, List.mem_range] at hx
  obtain ⟨i, hi, rfl⟩ := hx
  omega

theorem sessionIds_lower_bound (t : ℕ) (fs : List ℕ) (rest : List (ℕ × List ℕ))
    (hw : wellSeparated ((t, fs) :: rest)) :
    ∀ x ∈ sessionIds ((t, fs) :: rest), t ≤ x := by
  induction rest generalizing t fs with
  | nil =>
    intro x hx
    rw [sessionIds] at hx
    rcases List.mem_append.mp hx with h1 | h2
    · exact (mem_newImages_ids t fs x h1).1
    · simp [sessionIds] at h2
  | cons b2 r2 ih =>
    intro x hx
    obtain ⟨t₂, fs₂⟩ := b2
    unfold wellSeparated at hw
    rw [sessionIds] at hx
    rcases List.mem_append.mp hx with h1 | h2
    · exact (mem_newImages_ids t fs x h1).1
    · have hsep : t + fs.length ≤ t₂ := (List.chain'_cons.mp hw).1
      have hb := ih t₂ fs₂ (List.chain'_cons.mp hw).2 x h2
      omega

theorem session_ids_pairwise (batches : List (ℕ × List ℕ)) (h : wellSeparated batches) :
    (sessionIds batches).Pairwise (· < ·) := by
  induction batches with
  | nil => simp [sessionIds]
  | cons b rest ih =>
    obtain ⟨t, fs⟩ := b
    unfold wellSeparated at h
    rw [sessionIds, List.pairwise_append]
    refine ⟨?_, ih h.tail, ?_⟩
    · rw [newImages_map_id]
      exact List.Pairwise.map _ (fun a b hab => by omega) (List.pairwise_lt_range _)
    · intro a ha b hb
      have ha' := mem_newImages_ids t fs a ha
      cases rest with
      | nil => simp [sessionIds] at hb
      | cons b2 r2 =>
        obtain ⟨t₂, fs₂⟩ := b2
        have hsep : t + fs.length ≤ t₂ := (List.chain'_cons.mp h).1
        have hb' := sessionIds_lower_bound t₂ fs₂ r2 (List.chain'_cons.mp h).2 b hb
        omega

/-- C4 fails on the code as claimed: ids are `Date.now() + index`, so two
ingestions one millisecond apart (a two-file drop at t = 1000, then a
one-file drop at t = 1001) assign [1000, 1001, 1001] — neither
collision-free nor monotonically increasing. -/
theorem session_ids_collision_counterexample :
    sessionIds [(1000, [5, 6]), (1001, [7])] = [1000, 1001, 1001] ∧
    ¬ (sessionIds [(1000, [5, 6]), (1001, [7])]).Nodup ∧
    ¬ (sessionIds [(1000, [5, 6]), (1001, [7])]).Pairwise (· < ·) :=
  ⟨rfl, by decide, by decide⟩

/-- C4 amended: ids within a single ingestion are pairwise distinct and
increasing, and across a whole session they are pairwise distinct and
strictly increasing in insertion order provided the `Date.now()`
reading of each ingestion is at least the previous reading plus the previous
batch size (one millisecond per file). -/
theorem session_ids_distinct_increasing (batches : List (ℕ × List ℕ))
    (h : wellSeparated batches) :
    (sessionIds batches).Pairwise (· < ·) ∧ (sessionIds batches).Nodup :=
  ⟨session_ids_pairwise batches h,
   (session_ids_pairwise batches h).imp Nat.ne_of_lt⟩

/-- Witness for the amended id theorem on a concrete well-separated
session. -/
theorem session_ids_distinct_increasing_witness :
    (sessionIds [(0, [3]), (5, [4, 4])]).Pairwise (· < ·) ∧
    (sessionIds [(0, [3]), (5, [4, 4])]).Nodup :=
  session_ids_distinct_increasing _ (by
    unfold wellSeparated
    exact List.chain'_cons.mpr ⟨by decide, List.chain'_singleton _⟩)

/-! ## C8: late completions for a removed id -/

/-- C8 fails on the code: ids come from `Date.now()` readings and can be
reused. Delete the sole image (id 0) of a first ingestion while its
segmentation is pending; a second ingestion in the same millisecond
assigns id 0 again; the late completion for the deleted image then
attaches its result (7) to the new record, and the list still contains
the id. -/
theorem removed_id_completion_leaks :
    markProcessed (removeImage (newImages 0 [5]) 0 ++ newImages 0 [6]) 0 7 ≠
      removeImage (newImages 0 [5]) 0 ++ newImages 0 [6] ∧
    (markProcessed (removeImage (newImages 0 [5]) 0 ++ newImages 0 [6]) 0 7).map
      (·.processedFile) = [some 7] ∧
    0 ∈ (markProcessed (removeImage (newImages 0 [5]) 0 ++ newImages 0 [6]) 0 7).map (·.id) :=
  ⟨by decide, by decide, by decide⟩

/-- C8 amended: provided no record currently carries the removed id (true
immediately after removal, and preserved as long as no later ingestion
reuses the id), a late-arriving completion for that id is a no-op: the
store is unchanged — the record is not re-created and no other record
receives the result — and the list does not contain the id. -/
theorem removed_id_completion_noop (store : List ImageFile) (i r : ℕ)
    (h : ∀ img ∈ store, img.id ≠ i) :
    markProcessed store i r = store ∧ i ∉ store.map (·.id) := by
  constructor
  · unfold markProcessed
    have hcongr : ∀ img ∈ store,
        (if img.id = i then { img with processedFile := some r } else img) = img :=
      fun img hm => if_neg (h img hm)
    calc store.map _ = store.map id := List.map_congr_left hcongr
      _ = store := List.map_id store
  · intro hmem
    obtain ⟨img, hm, hid⟩ := List.mem_map.mp hmem
    exact h img hm hid

/-- Witness for the no-op theorem: delete id 0, then a later ingestion at
a strictly later millisecond (id 3); the late completion for id 0 leaves
the store unchanged. -/
theorem removed_id_completion_noop_witness :
    markProcessed (removeImage (newImages 0 [5]) 0 ++ newImages 3 [6]) 0 7 =
      removeImage (newImages 0 [5]) 0 ++ newImages 3 [6] ∧
    0 ∉ (removeImage (newImages 0 [5]) 0 ++ newImages 3 [6]).map (·.id) :=
  removed_id_completion_noop _ 0 7 (by decide)

/-! ## C7: per-item isolation in the onDrop processing loop -/

theorem markProcessed_getElem? (imgs : List ImageFile) (i r p : ℕ) :
    (markProcessed imgs i r)[p]? = (imgs[p]?).map fun img =>
      if img.id = i then { img with processedFile := some r } else img :=
  List.getElem?_map _ _ _

theorem processLoop_untouched (pairs : List (ImageFile × Option (List ℕ)))
    (imgs : List ImageFile) (p : ℕ) (e : ImageFile)
    (he : imgs[p]? = some e) (hids : ∀ pr ∈ pairs, pr.1.id ≠ e.id) :
    (processLoop pairs imgs)[p]? = some e := by
  induction pairs generalizing imgs with
  | nil => simpa [processLoop] using he
  | cons pr rest ih =>
    obtain ⟨image, res⟩ := pr
    have hne : image.id ≠ e.id := hids (image, res) (List.mem_cons_self _ _)
    have hrest : ∀ pr ∈ rest, pr.1.id ≠ e.id :=
      fun pr hpr => hids pr (List.mem_cons_of_mem _ hpr)
    rcases res with _ | ⟨_ | ⟨r0, rs0⟩⟩
    · simpa only [processLoop] using ih imgs he hrest
    · simpa only [processLoop] using ih imgs he hrest
    · have he' : (markProcessed imgs image.id r0)[p]? = some e := by
        rw [markProcessed_getElem?, he]
        simp [if_neg (Ne.symm hne)]
      simpa only [processLoop] using ih (markProcessed imgs image.id r0) he' hrest

theorem processLoop_sets (pairs : List (ImageFile × Option (List ℕ)))
    (imgs : List ImageFile) (p : ℕ) (e image : ImageFile) (r : ℕ) (rs : List ℕ)
    (hmem : (image, some (r :: rs)) ∈ pairs)
    (hnodup : (pairs.map fun pr => pr.1.id).Nodup)
    (he : imgs[p]? = some e) (hid : e.id = image.id) :
    (processLoop pairs imgs)[p]? = some { e with processedFile := some r } := by
  induction pairs generalizing imgs e with
  | nil => cases hmem
  | cons pr rest ih =>
    obtain ⟨image0, res0⟩ := pr
    rw [List.map_cons, List.nodup_cons] at hnodup
    rcases List.mem_cons.mp hmem with heq | hmem'
    · cases heq
      have he' : (markProcessed imgs image.id r)[p]? =
          some { e with processedFile := some r } := by
        rw [markProcessed_getElem?, he]
        simp [hid]
      have hids : ∀ pr ∈ rest, pr.1.id ≠ ({ e with processedFile := some r } : ImageFile).id := by
        intro pr hpr hcontra
        exact hnodup.1 (List.mem_map.mpr ⟨pr, hpr, by simpa [hid] using hcontra⟩)
      simpa only [processLoop] using
        processLoop_untouched rest _ p _ he' hids
    · have hne : image0.id ≠ image.id := by
        intro hcontra
        exact hnodup.1 (List.mem_map.mpr ⟨(image, some (r :: rs)), hmem', hcontra.symm⟩)
      rcases res0 with _ | ⟨_ | ⟨r0, rs0⟩⟩
      · simpa only [processLoop] using ih imgs e hmem' hnodup.2 he hid
      · simpa only [processLoop] using ih imgs e hmem' hnodup.2 he hid
      · have he' : (markProcessed imgs image0.id r0)[p]? = some e := by
          rw [markProcessed_getElem?, he]
          simp [if_neg (show e.id ≠ image0.id from fun hc => hne (hc ▸ hid ▸ rfl))]
        simpa only [processLoop] using ih (markProcessed imgs image0.id r0) e hmem' hnodup.2 he' hid

theorem zip_map_fst_take {α β : Type} (l₁ : List α) (l₂ : List β) :
    (l₁.zip l₂).map Prod.fst = l₁.take l₂.length := by
  induction l₁ generalizing l₂ with
  | nil => simp
  | cons a l ih =>
    cases l₂ with
    | nil => simp
    | cons b l' => simp [ih]

/-- C7: in a single onDrop batch in which `processImages` throws for some
item `k`, the failure is confined to item `k`: every other item whose
call resolves with a result still reaches the segmented state — its
record (at its position in the store) carries that result — whatever the
outcomes of all the other items. -/
theorem batch_failure_isolated (prev : List ImageFile) (now : ℕ) (files : List ℕ)
    (outcomes : List (Option (List ℕ))) (j k r : ℕ) (rs : List ℕ)
    (_hk : outcomes[k]? = some none) (_hjk : j ≠ k)
    (hj : outcomes[j]? = some (some (r :: rs))) (hjf : j < files.length) :
    ((onDropProcess prev now files outcomes)[prev.length + j]?).map (·.processedFile) =
      some (some r) := by
  have hfj : files[j]? = some files[j] := List.getElem?_eq_getElem hjf
  have hbatchj : (newImages now files)[j]? =
      some { id := now + j, file := files[j], processedFile := none } := by
    unfold newImages
    rw [List.getElem?_map, List.getElem?_enum, hfj]
    rfl
  have hpairj : ((newImages now files).zip outcomes)[j]? =
      some ({ id := now + j, file := files[j], processedFile := none }, some (r :: rs)) :=
    List.getElem?_zip_eq_some.mpr ⟨hbatchj, hj⟩
  have hmem := List.getElem?_mem hpairj
  have hnodup : (((newImages now files).zip outcomes).map fun pr => pr.1.id).Nodup := by
    have hrw : (((newImages now files).zip outcomes).map fun pr => pr.1.id) =
        ((newImages now files).map (·.id)).take outcomes.length := by
      rw [show (fun pr : ImageFile × Option (List ℕ) => pr.1.id) =
          ((·.id) ∘ Prod.fst) from rfl, ← List.map_map, zip_map_fst_take, List.map_take]
    rw [hrw]
    refine (List.take_sublist _ _).nodup ?_
    rw [newImages_map_id]
    exact (List.nodup_range _).map (add_right_injective now)
  have hinit : (prev ++ newImages now files)[prev.length + j]? =
      some { id := now + j, file := files[j], processedFile := none } := by
    rw [List.getElem?_append_right (Nat.le_add_right _ _)]
    simpa [Nat.add_sub_cancel_left] using hbatchj
  have hfinal := processLoop_sets ((newImages now files).zip outcomes)
    (prev ++ newImages now files) (prev.length + j) _ _ r rs hmem hnodup hinit rfl
  unfold onDropProcess
  rw [hfinal]
  rfl

/-- Witness for batch isolation: three files, the middle item throws, the
third item still ends with its result 30 attached. -/
theorem batch_failure_isolated_witness :
    ((onDropProcess [] 100 [1, 2, 3] [some [10], none, some [30]])[2]?).map
      (·.processedFile) = some (some 30) := by
  have h := batch_failure_isolated [] 100 [1, 2, 3] [some [10], none, some [30]]
    2 1 30 [] (by decide) (by decide) (by decide) (by decide)
  simpa using h
